import Mathlib

/-
Shallow Lean embedding of the EstudioWeb application: the batch processor
(file grouping, cascading per-item settings, chunked fan-out), the generation
client (response handling, retouch flow, outpainting mask construction), the
cost service, the auth middleware, and the gallery controllers.  TypeScript
numbers are modelled by ℚ / ℕ, JavaScript truthiness of strings by
nonemptiness, optional values by Option, and thrown exceptions by Except.
Case-mapping (toLowerCase / toUpperCase) is modelled by ASCII
character-wise case mapping.
-/

namespace EstudioWeb

/-! ### String helpers

JavaScript string primitives are re-implemented over `List Char` by structural
recursion (Lean's built-in `String.startsWith`, `String.splitOn`, … use
well-founded recursion and do not reduce in the kernel). -/

/-- Check that the first list starts with the second. -/
def listStartsWith : List Char → List Char → Bool
  | _, [] => true
  | [], _ :: _ => false
  | c :: cs, p :: ps => c = p && listStartsWith cs ps

/-- Embedding of JavaScript `s.startsWith(pre)`. -/
def jsStartsWith (s pre : String) : Bool :=
  listStartsWith s.data pre.data

/-- Fuel-driven worker for `jsSplit`; `acc` holds the current piece reversed. -/
def splitOnCharsFuel (sep : List Char) : Nat → List Char → List Char → List (List Char)
  | 0, acc, _ => [acc.reverse]
  | _ + 1, acc, [] => [acc.reverse]
  | fuel + 1, acc, c :: cs =>
    if sep ≠ [] ∧ listStartsWith (c :: cs) sep = true then
      acc.reverse :: splitOnCharsFuel sep fuel [] ((c :: cs).drop sep.length)
    else
      splitOnCharsFuel sep fuel (c :: acc) cs

/-- Embedding of JavaScript `s.split(sep)` for a nonempty separator. -/
def jsSplit (s sep : String) : List String :=
  (splitOnCharsFuel sep.data (s.data.length + 1) [] s.data).map String.mk

/-- Whitespace in the sense of JavaScript's `\s` class and `String.prototype.trim`
(ASCII whitespace, NBSP, the Unicode space separators, line separators, and BOM). -/
def isJsSpace (c : Char) : Bool :=
  c = ' ' || c = '\t' || c = '\n' || c = '\r' || c = '\x0b' || c = '\x0c'
  || c = '\u00A0' || c = '\u1680' || ('\u2000' ≤ c && c ≤ '\u200A') || c = '\u2028'
  || c = '\u2029' || c = '\u202F' || c = '\u205F' || c = '\u3000' || c = '\uFEFF'

/-- Strip leading and trailing characters satisfying `p`. -/
def trimCharsBy (p : Char → Bool) (l : List Char) : List Char :=
  ((l.dropWhile p).reverse.dropWhile p).reverse

/-- Embedding of JavaScript `s.trim()`. -/
def jsTrim (s : String) : String :=
  String.mk (trimCharsBy isJsSpace s.data)

/-- Embedding of JavaScript `s.toLowerCase()` (ASCII case mapping, applied
character by character; Lean's `String.toLower` does not reduce in the kernel). -/
def jsToLower (s : String) : String :=
  String.mk (s.data.map Char.toLower)

/-- Embedding of JavaScript `s.toUpperCase()` (ASCII case mapping). -/
def jsToUpper (s : String) : String :=
  String.mk (s.data.map Char.toUpper)

/-! ### Cost service (frontend/services/costService.ts) -/

/-- Operation types of the cost ledger. -/
inductive OperationType
  | retouch | model | expand | describe | enhance | training | correction | findDifferences
deriving DecidableEq

def PRICE_PER_INPUT_CHAR : ℚ := 0.35 / 1000000

def PRICE_PER_OUTPUT_CHAR : ℚ := 0.70 / 1000000

def PRICE_PER_INPUT_IMAGE : ℚ := 0.000125

def PRICE_PER_OUTPUT_IMAGE : ℚ := 0.020

/-- Parameters of `calculateCost`; absent fields are `none`. -/
structure CostCalculationParams where
  operation : OperationType
  inputChars : Option ℕ := none
  outputChars : Option ℕ := none
  inputImages : Option ℕ := none
  outputImages : Option ℕ := none

/-- Contribution of one guarded `if (params.x) totalCost += params.x * PRICE` step;
a JavaScript count of `0` is falsy, so it contributes nothing (like an absent one). -/
def jsNumContribution (count : Option ℕ) (price : ℚ) : ℚ :=
  match count with
  | some n => if n ≠ 0 then (n : ℚ) * price else 0
  | none => 0

/-- Embedding of `calculateCost`. -/
def calculateCost (params : CostCalculationParams) : ℚ :=
  let totalCost : ℚ := 0
  let totalCost := totalCost + jsNumContribution params.inputChars PRICE_PER_INPUT_CHAR
  let totalCost := totalCost + jsNumContribution params.outputChars PRICE_PER_OUTPUT_CHAR
  let totalCost := totalCost + jsNumContribution params.inputImages PRICE_PER_INPUT_IMAGE
  let totalCost := totalCost + jsNumContribution params.outputImages PRICE_PER_OUTPUT_IMAGE
  max totalCost 0.00001

lemma jsNumContribution_eq (c : Option ℕ) (price : ℚ) :
    jsNumContribution c price = ((c.getD 0 : ℕ) : ℚ) * price := by
  cases c with
  | none => simp [jsNumContribution]
  | some n =>
    by_cases h : n = 0
    · simp [jsNumContribution, h]
    · simp [jsNumContribution, h]

/-- C7: `calculateCost` is a deterministic pure function of the request shape:
it returns `max` of the linear pricing formula (absent or zero counts contributing 0)
and the minimum charge 0.00001; the result is always at least 0.00001, and two calls
with equal counts return equal costs regardless of the operation type. -/
theorem calculateCost_spec :
    (∀ p : CostCalculationParams,
      calculateCost p =
        max (((p.inputChars.getD 0 : ℕ) : ℚ) * (0.35 / 1000000)
          + ((p.outputChars.getD 0 : ℕ) : ℚ) * (0.70 / 1000000)
          + ((p.inputImages.getD 0 : ℕ) : ℚ) * 0.000125
          + ((p.outputImages.getD 0 : ℕ) : ℚ) * 0.020) 0.00001)
    ∧ (∀ p : CostCalculationParams, (0.00001 : ℚ) ≤ calculateCost p)
    ∧ (∀ p q : CostCalculationParams,
        p.inputChars = q.inputChars → p.outputChars = q.outputChars →
        p.inputImages = q.inputImages → p.outputImages = q.outputImages →
        calculateCost p = calculateCost q) := by
  have hform : ∀ p : CostCalculationParams,
      calculateCost p =
        max (((p.inputChars.getD 0 : ℕ) : ℚ) * (0.35 / 1000000)
          + ((p.outputChars.getD 0 : ℕ) : ℚ) * (0.70 / 1000000)
          + ((p.inputImages.getD 0 : ℕ) : ℚ) * 0.000125
          + ((p.outputImages.getD 0 : ℕ) : ℚ) * 0.020) 0.00001 := by
    intro p
    simp only [calculateCost, jsNumContribution_eq, PRICE_PER_INPUT_CHAR,
      PRICE_PER_OUTPUT_CHAR, PRICE_PER_INPUT_IMAGE, PRICE_PER_OUTPUT_IMAGE]
    ring_nf
  refine ⟨hform, ?_, ?_⟩
  · intro p
    rw [hform p]
    exact le_max_right _ _
  · intro p q h1 h2 h3 h4
    rw [hform p, hform q, h1, h2, h3, h4]

/-- Parameters of a concrete retouch call: 100 prompt characters, 2 input images,
1 output image. -/
def retouchParamsExample : CostCalculationParams :=
  { operation := OperationType.retouch, inputChars := some 100, inputImages := some 2, outputImages := some 1 }

/-- Parameters of an enhance call with the same counts as `retouchParamsExample`. -/
def enhanceParamsExample : CostCalculationParams :=
  { operation := OperationType.enhance, inputChars := some 100, inputImages := some 2, outputImages := some 1 }

/-- Witness for `calculateCost_spec` at a concrete parameter set: the retouch and the
enhance operation with the same counts cost the same, namely the formula value. -/
theorem calculateCost_spec_witness :
    calculateCost retouchParamsExample = calculateCost enhanceParamsExample
    ∧ calculateCost retouchParamsExample
      = max ((100 : ℚ) * (0.35 / 1000000) + (0 : ℚ) * (0.70 / 1000000)
          + (2 : ℚ) * 0.000125 + (1 : ℚ) * 0.020) 0.00001
    ∧ (0.00001 : ℚ) ≤ calculateCost { operation := OperationType.model } := by
  refine ⟨?_, ?_, ?_⟩
  · exact calculateCost_spec.2.2 retouchParamsExample enhanceParamsExample rfl rfl rfl rfl
  · have h := calculateCost_spec.1 retouchParamsExample
    simpa [retouchParamsExample] using h
  · exact calculateCost_spec.2.1 { operation := OperationType.model }

/-! ### Auth middleware (backend src/middleware/auth.middleware.ts) -/

/-- Decoded identity token fields attached to the request. -/
structure DecodedToken where
  uid : String
  email : Option String := none
  role : Option String := none
deriving DecidableEq

/-- Outcome of the middleware: an early rejection response, or passing control to
the downstream handler with `req.user` set. -/
inductive MwOutcome
  | reject (status : Nat) (message : String)
  | next (user : DecodedToken)
deriving DecidableEq

/-- Token text extracted by `authHeader.split('Bearer ')[1]`. -/
def bearerToken (authHeader : String) : String :=
  ((jsSplit authHeader "Bearer ").get? 1).getD ""

/-- Embedding of `authMiddleware`; `verifyIdToken` abstracts the identity
provider's `auth.verifyIdToken`.  A missing header and a header not starting
with `'Bearer '` (including the falsy empty header) take the same 401 branch. -/
def authMiddleware (verifyIdToken : String → Except String DecodedToken)
    (authorization : Option String) : MwOutcome :=
  match authorization with
  | none => MwOutcome.reject 401 "Não autorizado: Token não fornecido."
  | some authHeader =>
    if jsStartsWith authHeader "Bearer " then
      match verifyIdToken (bearerToken authHeader) with
      | Except.ok d => MwOutcome.next ⟨d.uid, d.email, d.role⟩
      | Except.error _ => MwOutcome.reject 403 "Não autorizado: Token inválido ou expirado."
    else MwOutcome.reject 401 "Não autorizado: Token não fornecido."

/-- C6: the auth middleware rejects with 401 when the Authorization header is absent
or does not start with `'Bearer '`, rejects with 403 when token verification fails,
and otherwise passes to the handler with `req.user` set to the decoded token's
uid/email/role; the handler runs (outcome `next`) only for a verified bearer token. -/
theorem authMiddleware_spec :
    (∀ v, authMiddleware v none = MwOutcome.reject 401 "Não autorizado: Token não fornecido.")
    ∧ (∀ v h, ¬ jsStartsWith h "Bearer " = true →
        authMiddleware v (some h) = MwOutcome.reject 401 "Não autorizado: Token não fornecido.")
    ∧ (∀ v h e, jsStartsWith h "Bearer " = true → v (bearerToken h) = Except.error e →
        authMiddleware v (some h) = MwOutcome.reject 403 "Não autorizado: Token inválido ou expirado.")
    ∧ (∀ v h d, jsStartsWith h "Bearer " = true → v (bearerToken h) = Except.ok d →
        authMiddleware v (some h) = MwOutcome.next ⟨d.uid, d.email, d.role⟩)
    ∧ (∀ v a u, authMiddleware v a = MwOutcome.next u →
        ∃ h, a = some h ∧ jsStartsWith h "Bearer " = true
          ∧ v (bearerToken h) = Except.ok ⟨u.uid, u.email, u.role⟩) := by
  refine ⟨fun v => rfl, ?_, ?_, ?_, ?_⟩
  · intro v h hs
    simp only [authMiddleware]
    rw [if_neg hs]
  · intro v h e hs hv
    simp only [authMiddleware]
    rw [if_pos hs, hv]
  · intro v h d hs hv
    simp only [authMiddleware]
    rw [if_pos hs, hv]
  · intro v a u hout
    cases a with
    | none => simp [authMiddleware] at hout
    | some h =>
      by_cases hs : jsStartsWith h "Bearer " = true
      · refine ⟨h, rfl, hs, ?_⟩
        simp only [authMiddleware] at hout
        rw [if_pos hs] at hout
        cases hv : v (bearerToken h) with
        | ok d =>
          rw [hv] at hout
          cases hout
          rfl
        | error e => rw [hv] at hout; cases hout
      · simp only [authMiddleware] at hout
        rw [if_neg hs] at hout
        cases hout

/-- Verifier used by the auth middleware witness: accepts exactly the token "good". -/
def exampleVerifier (t : String) : Except String DecodedToken :=
  if t = "good" then Except.ok ⟨"u1", none, some "admin"⟩ else Except.error "bad"

/-- Witness for `authMiddleware_spec` at concrete headers and a concrete verifier. -/
theorem authMiddleware_spec_witness :
    authMiddleware exampleVerifier (some "Bearer good") = MwOutcome.next ⟨"u1", none, some "admin"⟩
    ∧ authMiddleware exampleVerifier (some "Bearer evil")
      = MwOutcome.reject 403 "Não autorizado: Token inválido ou expirado."
    ∧ authMiddleware exampleVerifier (some "Basic abc")
      = MwOutcome.reject 401 "Não autorizado: Token não fornecido." := by
  refine ⟨?_, ?_, ?_⟩
  · exact authMiddleware_spec.2.2.2.1 exampleVerifier
      "Bearer good" ⟨"u1", none, some "admin"⟩ (by decide) rfl
  · exact authMiddleware_spec.2.2.1 exampleVerifier "Bearer evil" "bad" (by decide) rfl
  · exact authMiddleware_spec.2.1 exampleVerifier "Basic abc" (by decide)

/-! ### Generation client response handling (src/unnamed/part_001, `handleApiResponse`) -/

/-- JavaScript truthiness of an optional string: `undefined` and `''` are falsy. -/
def jsStr : Option String → Option String
  | some s => if s = "" then none else some s
  | none => none

/-- Inline image data of a response part. -/
structure InlineData where
  mimeType : String
  data : String
deriving DecidableEq

/-- One part of a candidate's content. -/
structure ResponsePart where
  inlineData : Option InlineData := none
  text : Option String := none
deriving DecidableEq

/-- Content of a candidate. -/
structure ResponseContent where
  parts : List ResponsePart := []
deriving DecidableEq

/-- One candidate of a provider response. -/
structure ResponseCandidate where
  content : Option ResponseContent := none
  finishReason : Option String := none
deriving DecidableEq

/-- Prompt feedback of a provider response. -/
structure PromptFeedback where
  blockReason : Option String := none
  blockReasonMessage : Option String := none
deriving DecidableEq

/-- Provider response shape used by `handleApiResponse`; the SDK's aggregated
`response.text` getter is modelled as a field. -/
structure GenerateContentResponse where
  promptFeedback : Option PromptFeedback := none
  candidates : List ResponseCandidate := []
  text : Option String := none
deriving DecidableEq

/-- Truthy block reason of `response.promptFeedback?.blockReason`. -/
def blockReasonOf (r : GenerateContentResponse) : Option String :=
  jsStr (r.promptFeedback.bind PromptFeedback.blockReason)

/-- First part with inline data: `response.candidates?.[0]?.content?.parts?.find(part => part.inlineData)`. -/
def firstImagePart (r : GenerateContentResponse) : Option ResponsePart :=
  ((r.candidates.get? 0).bind ResponseCandidate.content).bind
    (fun ct => ct.parts.find? (fun p => p.inlineData.isSome))

/-- Inline data of the first image part. -/
def firstInlineData (r : GenerateContentResponse) : Option InlineData :=
  (firstImagePart r).bind ResponsePart.inlineData

/-- Truthy finish reason of the first candidate. -/
def finishReasonOf (r : GenerateContentResponse) : Option String :=
  jsStr ((r.candidates.get? 0).bind ResponseCandidate.finishReason)

/-- Error branch of `handleApiResponse` when no image part exists. -/
def noImageError (r : GenerateContentResponse) (context : String) : Except String String :=
  Except.error ("O modelo de IA não retornou uma imagem para a tarefa de " ++ context ++ ". " ++
    (match jsStr (r.text.map jsTrim) with
     | some t => "O modelo respondeu com texto: \"" ++ t ++ "\""
     | none => "Isso pode acontecer devido a filtros de segurança ou se a solicitação for muito complexa. Por favor, tente reformular seu comando para ser mais direto."))

/-- Embedding of `handleApiResponse`: blocked prompts throw first, then the first
inline-data part is returned as a data URL, then an abnormal finish reason throws,
then the generic no-image error throws. -/
def handleApiResponse (r : GenerateContentResponse) (context : String) : Except String String :=
  match blockReasonOf r with
  | some br =>
    Except.error ("A solicitação para " ++ context ++ " foi bloqueada. Motivo: " ++ br ++ ". "
      ++ ((jsStr (r.promptFeedback.bind PromptFeedback.blockReasonMessage)).getD ""))
  | none =>
    match firstInlineData r with
    | some idata => Except.ok ("data:" ++ idata.mimeType ++ ";base64," ++ idata.data)
    | none =>
      match finishReasonOf r with
      | some fr =>
        if fr ≠ "STOP" then
          Except.error ("A tarefa de " ++ context ++ " parou inesperadamente. Motivo: " ++ fr
            ++ ". Isso geralmente está relacionado às configurações de segurança.")
        else noImageError r context
      | none => noImageError r context

/-- C5: `handleApiResponse` returns `data:<mimeType>;base64,<data>` built from the
first inline-data part of the first candidate exactly when the prompt is not blocked
and such a part exists, and throws (an `Except.error`) exactly when the prompt is
blocked or no inline-data part exists; it never returns anything else. -/
theorem handleApiResponse_spec :
    (∀ r ctx mt d, blockReasonOf r = none → firstInlineData r = some ⟨mt, d⟩ →
      handleApiResponse r ctx = Except.ok ("data:" ++ mt ++ ";base64," ++ d))
    ∧ (∀ r ctx s, handleApiResponse r ctx = Except.ok s →
        blockReasonOf r = none ∧ ∃ mt d, firstInlineData r = some ⟨mt, d⟩
          ∧ s = "data:" ++ mt ++ ";base64," ++ d)
    ∧ (∀ r ctx, (blockReasonOf r ≠ none ∨ firstInlineData r = none) →
        ∃ e, handleApiResponse r ctx = Except.error e) := by
  have hinv : ∀ r ctx s, handleApiResponse r ctx = Except.ok s →
      blockReasonOf r = none ∧ ∃ mt d, firstInlineData r = some ⟨mt, d⟩
        ∧ s = "data:" ++ mt ++ ";base64," ++ d := by
    intro r ctx s hok
    cases hb : blockReasonOf r with
    | some br =>
      simp only [handleApiResponse, hb] at hok
      cases hok
    | none =>
      refine ⟨rfl, ?_⟩
      cases hi : firstInlineData r with
      | some idata =>
        simp only [handleApiResponse, hb, hi] at hok
        cases hok
        exact ⟨idata.mimeType, idata.data, rfl, rfl⟩
      | none =>
        cases hf : finishReasonOf r with
        | some fr =>
          simp only [handleApiResponse, hb, hi, hf] at hok
          split at hok
          · cases hok
          · simp only [noImageError] at hok
            cases hok
        | none =>
          simp only [handleApiResponse, hb, hi, hf, noImageError] at hok
          cases hok
  refine ⟨?_, hinv, ?_⟩
  · intro r ctx mt d hb hi
    simp only [handleApiResponse, hb, hi]
  · intro r ctx hbad
    cases hres : handleApiResponse r ctx with
    | error e => exact ⟨e, rfl⟩
    | ok s =>
      rcases hinv r ctx s hres with ⟨hb, mt, d, hi, hs⟩
      rcases hbad with hbad | hbad
      · exact absurd hb hbad
      · rw [hbad] at hi
        cases hi

/-- Blocked provider response used in witnesses and counterexamples. -/
def blockedResponse : GenerateContentResponse :=
  { promptFeedback := some { blockReason := some "SAFETY" } }

/-- Successful provider response carrying one inline-data part. -/
def okImageResponse : GenerateContentResponse :=
  { candidates := [{ content := some { parts := [{ inlineData := some ⟨"image/png", "QUJD"⟩ }] } }] }

/-- Witness for `handleApiResponse_spec` at concrete responses. -/
theorem handleApiResponse_spec_witness :
    handleApiResponse okImageResponse "retouch" = Except.ok "data:image/png;base64,QUJD"
    ∧ ∃ e, handleApiResponse blockedResponse "retouch" = Except.error e := by
  constructor
  · exact handleApiResponse_spec.1 okImageResponse "retouch" "image/png" "QUJD" rfl rfl
  · exact handleApiResponse_spec.2.2 blockedResponse "retouch" (Or.inl (by decide))

/-! ### Retouch flow (src/unnamed/part_001, `generateEditedImage`) -/

/-- Observable side effects of one `generateEditedImage` run: a provider generation
request, and a cost record written by `logCost`. -/
inductive GenEvent
  | generateCall
  | costLogged
deriving DecidableEq

/-- Result and event trace of a `generateEditedImage` run. -/
structure RetouchRun where
  result : Except String String
  events : List GenEvent

/-- Embedding of `generateEditedImage`, abstracting the provider by the response `r`
it would return.  With neither hotspot nor mask it throws before any request or log;
otherwise it issues the one generation request, and logs one cost record only after
`handleApiResponse` returns an image. -/
def generateEditedImage (hotspot : Option (Int × Int)) (maskFile : Option String)
    (r : GenerateContentResponse) : RetouchRun :=
  match maskFile, hotspot with
  | none, none =>
    { result := Except.error "É necessário fornecer um hotspot ou uma máscara para a edição."
      events := [] }
  | _, _ =>
    match handleApiResponse r "retouch" with
    | Except.ok s => { result := Except.ok s, events := [GenEvent.generateCall, GenEvent.costLogged] }
    | Except.error e => { result := Except.error e, events := [GenEvent.generateCall] }

/-- C8 counterexample: with a mask supplied and a blocked provider response, the run
performs one generation call but logs zero cost records, refuting the claim that a
masked edit always logs exactly one cost record. -/
theorem generateEditedImage_counterexample :
    (generateEditedImage none (some "mask") blockedResponse).events.count GenEvent.generateCall = 1
    ∧ (generateEditedImage none (some "mask") blockedResponse).events.count GenEvent.costLogged ≠ 1
    ∧ (generateEditedImage none (some "mask") blockedResponse).events.count GenEvent.costLogged = 0 := by
  refine ⟨rfl, ?_, rfl⟩
  intro h
  have h0 : (generateEditedImage none (some "mask") blockedResponse).events.count
      GenEvent.costLogged = 0 := rfl
  rw [h0] at h
  cases h

/-- C8 (amended): with both hotspot and mask absent, `generateEditedImage` throws
the fixed error before issuing any generation request or logging any cost; when a
mask or a hotspot is supplied it performs exactly one generation call, and logs
exactly one cost record when the response handler returns an image (and none when
it throws). -/
theorem generateEditedImage_amended :
    (∀ r, generateEditedImage none none r =
      { result := Except.error "É necessário fornecer um hotspot ou uma máscara para a edição."
        events := [] })
    ∧ (∀ h m r, m ≠ none ∨ h ≠ none →
        (generateEditedImage h m r).events.count GenEvent.generateCall = 1)
    ∧ (∀ h m r s, m ≠ none ∨ h ≠ none → (generateEditedImage h m r).result = Except.ok s →
        (generateEditedImage h m r).events.count GenEvent.costLogged = 1)
    ∧ (∀ h m r e, m ≠ none ∨ h ≠ none → (generateEditedImage h m r).result = Except.error e →
        (generateEditedImage h m r).events.count GenEvent.costLogged = 0) := by
  have hmain : ∀ (h : Option (Int × Int)) (m : Option String) r, m ≠ none ∨ h ≠ none →
      generateEditedImage h m r =
        (match handleApiResponse r "retouch" with
         | Except.ok s => { result := Except.ok s, events := [GenEvent.generateCall, GenEvent.costLogged] }
         | Except.error e => { result := Except.error e, events := [GenEvent.generateCall] }) := by
    intro h m r hsupplied
    cases m with
    | some mv => rfl
    | none =>
      cases h with
      | some hv => rfl
      | none => simp at hsupplied
  refine ⟨fun r => rfl, ?_, ?_, ?_⟩
  · intro h m r hs
    rw [hmain h m r hs]
    cases handleApiResponse r "retouch" <;> rfl
  · intro h m r s hs hok
    rw [hmain h m r hs] at hok ⊢
    cases hr : handleApiResponse r "retouch" with
    | ok s2 => rfl
    | error e => rw [hr] at hok; cases hok
  · intro h m r e hs herr
    rw [hmain h m r hs] at herr ⊢
    cases hr : handleApiResponse r "retouch" with
    | ok s2 => rw [hr] at herr; cases herr
    | error e2 => rfl

/-- Witness for `generateEditedImage_amended`: a mask-only run against the successful
response yields one generation call and one cost record; the no-selection run throws
with no events. -/
theorem generateEditedImage_amended_witness :
    (generateEditedImage none (some "mask") okImageResponse).events.count GenEvent.generateCall = 1
    ∧ (generateEditedImage none (some "mask") okImageResponse).events.count GenEvent.costLogged = 1
    ∧ (generateEditedImage none none okImageResponse).events = [] := by
  refine ⟨?_, ?_, ?_⟩
  · exact generateEditedImage_amended.2.1 none (some "mask") okImageResponse (Or.inl (by decide))
  · exact generateEditedImage_amended.2.2.1 none (some "mask") okImageResponse
      "data:image/png;base64,QUJD" (Or.inl (by decide)) rfl
  · rw [generateEditedImage_amended.1 okImageResponse]

/-! ### Batch queue processing (frontend/components/BatchProcessor.tsx, `processQueue`)

The loop `for (let i = 0; i < itemsToProcess.length; i += CONCURRENCY_LIMIT)
{ if cancelled break; await Promise.all(chunk.map(processItem)) }` is embedded as a
list of chunks executed strictly in order; `await Promise.all` per iteration means
every request of a chunk settles before the next chunk starts. -/

def CONCURRENCY_LIMIT : Nat := 3

/-- Status of a queue item. -/
inductive ItemStatus
  | queued | processing | done | error
deriving DecidableEq

/-- Queue item of the batch processor (the fields `processQueue` inspects). -/
structure QItem where
  id : String
  status : ItemStatus
deriving DecidableEq

/-- Reset step `item.status === 'error' ? { ...item, status: 'queued' } : item`. -/
def resetErrorItem (i : QItem) : QItem :=
  if i.status = ItemStatus.error then { i with status := ItemStatus.queued } else i

/-- Embedding of `itemsToProcess`: errors are reset to queued, then the queued items
are kept in queue order. -/
def itemsToProcess (queue : List QItem) : List QItem :=
  (queue.map resetErrorItem).filter (fun i => i.status = ItemStatus.queued)

/-- Fuel-driven chunking mirroring `itemsToProcess.slice(i, i + CONCURRENCY_LIMIT)`. -/
def chunksOfFuel (n : Nat) : Nat → List QItem → List (List QItem)
  | _, [] => []
  | 0, _ :: _ => []
  | fuel + 1, c :: cs => (c :: cs).take n :: chunksOfFuel n fuel ((c :: cs).drop n)

/-- Chunks that `processQueue` runs, in execution order. -/
def processQueueChunks (queue : List QItem) : List (List QItem) :=
  chunksOfFuel CONCURRENCY_LIMIT (itemsToProcess queue).length (itemsToProcess queue)

/-- Chunk execution under the `isBatchCancelled` flag, sampled at the top of each
iteration: `cancelled i` tells whether the flag is set when chunk `i` would start. -/
def runChunksFrom (cancelled : Nat → Bool) : Nat → List (List QItem) → List (List QItem)
  | _, [] => []
  | i, c :: cs => if cancelled i then [] else c :: runChunksFrom cancelled (i + 1) cs

/-- Chunks actually executed by `processQueue` given the cancellation flag history. -/
def runChunks (cancelled : Nat → Bool) (chunks : List (List QItem)) : List (List QItem) :=
  runChunksFrom cancelled 0 chunks

lemma chunksOfFuel_join (n : Nat) (hn : 0 < n) :
    ∀ fuel l, l.length ≤ fuel → (chunksOfFuel n fuel l).flatten = l := by
  intro fuel
  induction fuel with
  | zero =>
    intro l hl
    cases l with
    | nil => rfl
    | cons c cs => simp at hl
  | succ m ih =>
    intro l hl
    cases l with
    | nil => rfl
    | cons c cs =>
      simp only [chunksOfFuel, List.flatten_cons]
      rw [ih ((c :: cs).drop n) ?hlen]
      · exact List.take_append_drop n (c :: cs)
      · case hlen =>
        rw [List.length_drop]
        omega

lemma chunksOfFuel_mem (n : Nat) (hn : 0 < n) :
    ∀ fuel l ch, ch ∈ chunksOfFuel n fuel l → ch.length ≤ n ∧ ch ≠ [] := by
  intro fuel
  induction fuel with
  | zero =>
    intro l ch hm
    cases l with
    | nil => simp [chunksOfFuel] at hm
    | cons c cs => simp [chunksOfFuel] at hm
  | succ m ih =>
    intro l ch hm
    cases l with
    | nil => simp [chunksOfFuel] at hm
    | cons c cs =>
      simp only [chunksOfFuel, List.mem_cons] at hm
      rcases hm with hm | hm
      · subst hm
        refine ⟨List.length_take_le n (c :: cs), ?_⟩
        cases n with
        | zero => omega
        | succ k => simp [List.take_succ_cons]
      · exact ih _ _ hm

lemma runChunksFrom_take (cancelled : Nat → Bool) :
    ∀ l i, ∃ k, runChunksFrom cancelled i l = l.take k := by
  intro l
  induction l with
  | nil => exact fun i => ⟨0, rfl⟩
  | cons c cs ih =>
    intro i
    by_cases hc : cancelled i
    · exact ⟨0, by simp [runChunksFrom, hc]⟩
    · rcases ih (i + 1) with ⟨k, hk⟩
      exact ⟨k + 1, by simp [runChunksFrom, hc, hk, List.take_succ_cons]⟩

/-- C1: `processQueue` processes the queued items in chunks taken in queue order —
the concatenation of the chunks is exactly the queued item list in order, every
chunk holds at most `CONCURRENCY_LIMIT = 3` items (the concurrency cap) and is
nonempty, and under cancellation the executed chunks are an initial run of
consecutive chunks: once the flag stops the loop no later chunk ever starts. -/
theorem processQueue_spec :
    (∀ queue : List QItem, (processQueueChunks queue).flatten = itemsToProcess queue)
    ∧ (∀ queue ch, ch ∈ processQueueChunks queue → ch.length ≤ CONCURRENCY_LIMIT ∧ ch ≠ [])
    ∧ (∀ cancelled queue, ∃ k,
        runChunks cancelled (processQueueChunks queue) = (processQueueChunks queue).take k)
    ∧ CONCURRENCY_LIMIT = 3 := by
  refine ⟨?_, ?_, ?_, rfl⟩
  · intro queue
    exact chunksOfFuel_join CONCURRENCY_LIMIT (by decide) _ _ le_rfl
  · intro queue ch hm
    exact chunksOfFuel_mem CONCURRENCY_LIMIT (by decide) _ _ ch hm
  · intro cancelled queue
    exact runChunksFrom_take cancelled (processQueueChunks queue) 0

/-- Sample queue for the `processQueue_spec` witness: four queued items, one done,
one errored (which is re-queued). -/
def sampleQueue : List QItem :=
  [⟨"a", ItemStatus.queued⟩, ⟨"b", ItemStatus.queued⟩, ⟨"c", ItemStatus.done⟩,
   ⟨"d", ItemStatus.error⟩, ⟨"e", ItemStatus.queued⟩, ⟨"f", ItemStatus.queued⟩]

/-- First chunk that `processQueue` runs on `sampleQueue`. -/
def sampleChunk1 : List QItem :=
  [⟨"a", ItemStatus.queued⟩, ⟨"b", ItemStatus.queued⟩, ⟨"d", ItemStatus.queued⟩]

/-- Second chunk that `processQueue` runs on `sampleQueue`. -/
def sampleChunk2 : List QItem :=
  [⟨"e", ItemStatus.queued⟩, ⟨"f", ItemStatus.queued⟩]

/-- Witness for `processQueue_spec`: on the sample queue the chunks are the five
runnable items split 3 + 2 in queue order, and their sizes are within the cap. -/
theorem processQueue_spec_witness :
    processQueueChunks sampleQueue = [sampleChunk1, sampleChunk2]
    ∧ (processQueueChunks sampleQueue).flatten = itemsToProcess sampleQueue
    ∧ sampleChunk1.length ≤ CONCURRENCY_LIMIT ∧ sampleChunk1 ≠ [] := by
  refine ⟨by decide, processQueue_spec.1 sampleQueue, ?_, ?_⟩
  · exact (processQueue_spec.2.1 sampleQueue sampleChunk1 (by decide)).1
  · exact (processQueue_spec.2.1 sampleQueue sampleChunk1 (by decide)).2

/-! ### Per-item settings cascade (BatchProcessor.tsx, `processItem`)

Spreadsheet metadata rows are modelled as association lists of string keys to
string values (`String(...)` conversion already applied); JavaScript truthiness of
a value is nonemptiness. -/

/-- Model gender. -/
inductive Gender
  | male | female
deriving DecidableEq

/-- The fields of a queue item that the settings cascade reads: the two UI
overrides and the spreadsheet metadata row. -/
structure ItemSettings where
  modelGender : Option Gender := none
  modelAge : Option String := none
  metadata : Option (List (String × String)) := none

/-- Worker for `findMetaValue`: for each key in order, look up the first metadata
key equal up to lowercasing; a falsy (empty) value falls through to the next key. -/
def findMetaValueGo (m : List (String × String)) : List String → Option String
  | [] => none
  | k :: ks =>
    match m.find? (fun p => jsToLower p.1 = jsToLower k) with
    | some p => if p.2 ≠ "" then some p.2 else findMetaValueGo m ks
    | none => findMetaValueGo m ks

/-- Embedding of `processItem`'s `findMetaValue` helper. -/
def findMetaValue (metadata : Option (List (String × String))) (keys : List String) : Option String :=
  match metadata with
  | none => none
  | some m => findMetaValueGo m keys

/-- Metadata keys recognised for the model gender. -/
def genderKeys : List String := ["gênero", "genero", "gender", "sexo"]

/-- Metadata keys recognised for the model age. -/
def ageKeys : List String := ["idade", "age", "faixa etária", "(anos)"]

/-- Embedding of the gender resolution of `processItem`: global default, overridden
by a recognised spreadsheet value, overridden by the item's UI override. -/
def resolveItemGender (modelGender : Gender) (item : ItemSettings) : Gender :=
  let itemGender := modelGender
  let metaGender := (findMetaValue item.metadata genderKeys).map jsToLower
  let itemGender :=
    if metaGender = some "male" ∨ metaGender = some "masculino" then Gender.male
    else if metaGender = some "female" ∨ metaGender = some "feminino" then Gender.female
    else itemGender
  match item.modelGender with
  | some g => g
  | none => itemGender

/-- Embedding of the age resolution of `processItem`: global default indexed by the
already-resolved gender, overridden by a spreadsheet value, overridden by the item's
(truthy) UI override. -/
def resolveItemAge (modelAge : Gender → String) (modelGender : Gender)
    (item : ItemSettings) : String :=
  let itemGender := resolveItemGender modelGender item
  let itemAge := modelAge itemGender
  let itemAge :=
    match findMetaValue item.metadata ageKeys with
    | some a => a
    | none => itemAge
  match item.modelAge with
  | some a => if a ≠ "" then a else itemAge
  | none => itemAge

/-- Truthiness of the `item.modelAge` UI override. -/
def uiAgeSet (item : ItemSettings) : Prop :=
  ∃ a, item.modelAge = some a ∧ a ≠ ""

/-- Recognised lowercased spreadsheet gender value. -/
def metaGenderValue (item : ItemSettings) : Option String :=
  (findMetaValue item.metadata genderKeys).map jsToLower

/-- C2: `processItem` resolves gender and age by cascading priority.  Gender: the
item's UI override wins; otherwise a spreadsheet value mapped from male/masculino or
female/feminino wins; otherwise the global setting.  Age: a truthy UI override wins;
otherwise the spreadsheet value under the age keys wins; otherwise the global age
setting indexed by the already-resolved gender. -/
theorem processItem_cascade :
    (∀ g item gu, item.modelGender = some gu → resolveItemGender g item = gu)
    ∧ (∀ g item, item.modelGender = none →
        (metaGenderValue item = some "male" ∨ metaGenderValue item = some "masculino" →
          resolveItemGender g item = Gender.male)
        ∧ (¬ (metaGenderValue item = some "male" ∨ metaGenderValue item = some "masculino") →
            (metaGenderValue item = some "female" ∨ metaGenderValue item = some "feminino") →
            resolveItemGender g item = Gender.female)
        ∧ (¬ (metaGenderValue item = some "male" ∨ metaGenderValue item = some "masculino") →
            ¬ (metaGenderValue item = some "female" ∨ metaGenderValue item = some "feminino") →
            resolveItemGender g item = g))
    ∧ (∀ ga g item a, item.modelAge = some a → a ≠ "" → resolveItemAge ga g item = a)
    ∧ (∀ ga g item v, ¬ uiAgeSet item → findMetaValue item.metadata ageKeys = some v →
        resolveItemAge ga g item = v)
    ∧ (∀ ga g item, ¬ uiAgeSet item → findMetaValue item.metadata ageKeys = none →
        resolveItemAge ga g item = ga (resolveItemGender g item)) := by
  have hageNoUi : ∀ (ga : Gender → String) g item, ¬ uiAgeSet item →
      resolveItemAge ga g item =
        (match findMetaValue item.metadata ageKeys with
         | some a => a
         | none => ga (resolveItemGender g item)) := by
    intro ga g item hui
    simp only [resolveItemAge]
    cases hm : item.modelAge with
    | none => rfl
    | some a =>
      by_cases ha : a = ""
      · subst ha
        simp
      · exact absurd ⟨a, hm, ha⟩ hui
  refine ⟨?_, ?_, ?_, ?_, ?_⟩
  · intro g item gu hset
    simp only [resolveItemGender, hset]
  · intro g item hnone
    refine ⟨?_, ?_, ?_⟩
    · intro hmale
      simp only [resolveItemGender, hnone, metaGenderValue] at hmale ⊢
      rw [if_pos hmale]
    · intro hnmale hfemale
      simp only [resolveItemGender, hnone, metaGenderValue] at hnmale hfemale ⊢
      rw [if_neg hnmale, if_pos hfemale]
    · intro hnmale hnfemale
      simp only [resolveItemGender, hnone, metaGenderValue] at hnmale hnfemale ⊢
      rw [if_neg hnmale, if_neg hnfemale]
  · intro ga g item a hset hne
    simp only [resolveItemAge, hset]
    rw [if_pos hne]
  · intro ga g item v hui hmeta
    rw [hageNoUi ga g item hui, hmeta]
  · intro ga g item hui hmeta
    rw [hageNoUi ga g item hui, hmeta]

/-- Metadata row used by the cascade witness: a spreadsheet row whose `Gênero`
column says `Feminino` and whose `Idade` column says `8 anos`. -/
def sampleMetadata : List (String × String) :=
  [("SKU", "ABC"), ("Gênero", "feminino"), ("Idade", "8 anos")]

/-- Witness for `processItem_cascade` on concrete items: the UI override beats the
spreadsheet row, the spreadsheet row beats the global default, and without either
the global default (indexed by the resolved gender) applies. -/
theorem processItem_cascade_witness :
    resolveItemGender Gender.male { modelGender := some Gender.male, metadata := some sampleMetadata }
      = Gender.male
    ∧ resolveItemGender Gender.male { metadata := some sampleMetadata } = Gender.female
    ∧ resolveItemAge (fun g => if g = Gender.male then "30 anos" else "25 anos") Gender.male
        { metadata := some sampleMetadata } = "8 anos"
    ∧ resolveItemAge (fun g => if g = Gender.male then "30 anos" else "25 anos") Gender.male
        { modelAge := some "12 anos", metadata := some sampleMetadata } = "12 anos"
    ∧ resolveItemAge (fun g => if g = Gender.male then "30 anos" else "25 anos") Gender.male
        { modelGender := some Gender.female } = "25 anos" := by
  refine ⟨?_, ?_, ?_, ?_, ?_⟩
  · exact processItem_cascade.1 Gender.male
      { modelGender := some Gender.male, metadata := some sampleMetadata } Gender.male rfl
  · exact (processItem_cascade.2.1 Gender.male { metadata := some sampleMetadata } rfl).2.1
      (by decide) (Or.inr (by decide))
  · exact processItem_cascade.2.2.2.1
      (fun g => if g = Gender.male then "30 anos" else "25 anos") Gender.male
      { metadata := some sampleMetadata } "8 anos"
      (by rintro ⟨a, ha, hne⟩; cases ha) (by decide)
  · exact processItem_cascade.2.2.1
      (fun g => if g = Gender.male then "30 anos" else "25 anos") Gender.male
      { modelAge := some "12 anos", metadata := some sampleMetadata } "12 anos" rfl (by decide)
  · exact processItem_cascade.2.2.2.2
      (fun g => if g = Gender.male then "30 anos" else "25 anos") Gender.male
      { modelGender := some Gender.female } (by rintro ⟨a, ha, hne⟩; cases ha) rfl

/-! ### File grouping (BatchProcessor.tsx, `normalizeSku`, `getBaseName`, `handleFiles`) -/

/-- Embedding of the extension strip `fileName.replace(/\.[^/.]+$/, '')`: the final
dot-segment is removed when it is nonempty and contains no slash. -/
def stripExtension (s : String) : String :=
  let l := s.data
  let revTail := l.reverse.takeWhile (fun c => c != '.')
  if revTail.length < l.length ∧ 0 < revTail.length ∧ revTail.all (fun c => c != '/') then
    String.mk (l.take (l.length - revTail.length - 1))
  else s

/-- View suffixes stripped by `getBaseName`, in source order. -/
def textSuffixes : List String :=
  ["_frente", "_costas", "_back", "_front", "_total_look", "_detalhe", "_side", "_lado"]

/-- Embedding of JavaScript `s.endsWith(suf)`. -/
def jsEndsWith (s suf : String) : Bool :=
  listStartsWith s.data.reverse suf.data.reverse

/-- Embedding of JavaScript `s.slice(0, -n)` for `0 < n ≤ s.length`. -/
def jsDropRight (s : String) (n : Nat) : String :=
  String.mk (s.data.take (s.data.length - n))

/-- One pass of the text-suffix loop: the first suffix the lowercased name ends
with is sliced off. -/
def tryTextSuffix (s : String) : Option String :=
  match textSuffixes.find? (fun suf => jsEndsWith (jsToLower s) suf) with
  | some suf => some (jsDropRight s suf.data.length)
  | none => none

/-- One pass of the numeric-suffix step `baseName.match(/_(\d{1,2})$/)`: a trailing
run of one or two digits preceded by an underscore is removed together with the
underscore. -/
def tryNumericSuffix (s : String) : Option String :=
  let rev := s.data.reverse
  let digs := rev.takeWhile Char.isDigit
  if 1 ≤ digs.length ∧ digs.length ≤ 2 then
    match rev.drop digs.length with
    | '_' :: _ => some (String.mk ((rev.drop (digs.length + 1)).reverse))
    | _ => none
  else none

/-- The `while (hasChanged)` loop of `getBaseName`: text suffixes are tried first,
then a numeric suffix; every successful strip removes at least two characters, so
the string length bounds the number of iterations. -/
def stripSuffixLoop : Nat → String → String
  | 0, s => s
  | fuel + 1, s =>
    match tryTextSuffix s with
    | some s2 => stripSuffixLoop fuel s2
    | none =>
      match tryNumericSuffix s with
      | some s2 => stripSuffixLoop fuel s2
      | none => s

/-- Embedding of `getBaseName`. -/
def getBaseName (fileName : String) : String :=
  let baseName := jsTrim (stripExtension fileName)
  stripSuffixLoop baseName.data.length baseName

/-- Character class `[‐-―\s-]` of `normalizeSku`'s separator regex. -/
def isSkuSep (c : Char) : Bool :=
  ('‐' ≤ c && c ≤ '―') || isJsSpace c || c = '-'

/-- Collapse every run of separator characters into a single underscore. -/
def collapseSepsFuel : Nat → List Char → List Char
  | 0, _ => []
  | _ + 1, [] => []
  | fuel + 1, c :: rest =>
    if isSkuSep c then '_' :: collapseSepsFuel fuel (rest.dropWhile isSkuSep)
    else c :: collapseSepsFuel fuel rest

/-- Embedding of `normalizeSku`: trim whitespace/BOM, collapse dash/space runs to a
single underscore, uppercase. -/
def normalizeSku (sku : String) : String :=
  let trimmed := trimCharsBy isJsSpace sku.data
  jsToUpper (String.mk (collapseSepsFuel trimmed.length trimmed))

/-- Group key computed by `handleFiles`: `normalizeSku(getBaseName(file.name))`. -/
def groupKey (fileName : String) : String :=
  normalizeSku (getBaseName fileName)

/-- Insertion into the `fileGroups` map, keeping insertion order: the file is pushed
onto the unique existing group with its key, or a new group is appended. -/
def insertGrouped {α : Type} (key : α → String) : List (String × List α) → α → List (String × List α)
  | [], f => [(key f, [f])]
  | p :: ps, f =>
    if p.1 = key f then (p.1, p.2 ++ [f]) :: ps else p :: insertGrouped key ps f

/-- Grouping fold of `handleFiles` over the uploaded file list. -/
def groupFiles {α : Type} (key : α → String) (files : List α) : List (String × List α) :=
  files.foldl (insertGrouped key) []

/-- Embedding of the grouping phase of `handleFiles` (files identified by name):
one queue item is created per entry of the resulting list. -/
def handleFilesGroups (files : List String) : List (String × List String) :=
  groupFiles groupKey files

/-- Invariant of the grouping map: keys are distinct, and every group is nonempty
and holds only files with that key. -/
def GroupInv {α : Type} (key : α → String) (gs : List (String × List α)) : Prop :=
  (gs.map Prod.fst).Nodup ∧ ∀ p ∈ gs, p.2 ≠ [] ∧ ∀ f ∈ p.2, key f = p.1

lemma insertGrouped_spec {α : Type} (key : α → String) (f : α) :
    ∀ gs, GroupInv key gs →
      GroupInv key (insertGrouped key gs f)
      ∧ (∀ x, (∃ p ∈ insertGrouped key gs f, x ∈ p.2) ↔ (∃ p ∈ gs, x ∈ p.2) ∨ x = f)
      ∧ ((insertGrouped key gs f).map Prod.fst = gs.map Prod.fst
        ∨ (insertGrouped key gs f).map Prod.fst = gs.map Prod.fst ++ [key f]) := by
  intro gs
  induction gs with
  | nil =>
    intro _
    refine ⟨⟨?_, ?_⟩, ?_, Or.inr rfl⟩
    · simp [insertGrouped]
    · intro p hp
      simp only [insertGrouped, List.mem_singleton] at hp
      subst hp
      exact ⟨by simp, by simp⟩
    · intro x
      simp [insertGrouped]
  | cons p ps ih =>
    intro hinv
    have hnd : (ps.map Prod.fst).Nodup := (List.nodup_cons.mp hinv.1).2
    have hhead : p.1 ∉ ps.map Prod.fst := (List.nodup_cons.mp hinv.1).1
    have hinv_tail : GroupInv key ps :=
      ⟨hnd, fun q hq => hinv.2 q (List.mem_cons_of_mem p hq)⟩
    by_cases hp : p.1 = key f
    · refine ⟨⟨?_, ?_⟩, ?_, Or.inl ?_⟩
      · simpa [insertGrouped, hp] using hinv.1
      · intro q hq
        simp only [insertGrouped, if_pos hp, List.mem_cons] at hq
        rcases hq with hq | hq
        · subst hq
          refine ⟨by simp, ?_⟩
          intro x hx
          rcases List.mem_append.mp hx with hx | hx
          · exact (hinv.2 p (List.mem_cons_self p ps)).2 x hx
          · rw [List.mem_singleton.mp hx, hp]
        · exact hinv.2 q (List.mem_cons_of_mem p hq)
      · intro x
        simp only [insertGrouped, if_pos hp, List.mem_cons]
        constructor
        · rintro ⟨q, hq | hq, hx⟩
          · rw [hq] at hx
            rcases List.mem_append.mp hx with hx | hx
            · exact Or.inl ⟨p, Or.inl rfl, hx⟩
            · exact Or.inr (List.mem_singleton.mp hx)
          · exact Or.inl ⟨q, Or.inr hq, hx⟩
        · rintro (⟨q, hq | hq, hx⟩ | hx)
          · rw [hq] at hx
            exact ⟨(p.1, p.2 ++ [f]), Or.inl rfl, List.mem_append.mpr (Or.inl hx)⟩
          · exact ⟨q, Or.inr hq, hx⟩
          · rw [hx]
            exact ⟨(p.1, p.2 ++ [f]), Or.inl rfl, List.mem_append.mpr (Or.inr (by simp))⟩
      · simp [insertGrouped, hp]
    · rcases ih hinv_tail with ⟨hinv2, hmem2, hfst2⟩
      refine ⟨⟨?_, ?_⟩, ?_, ?_⟩
      · simp only [insertGrouped, if_neg hp, List.map_cons]
        rw [List.nodup_cons]
        refine ⟨?_, hinv2.1⟩
        rcases hfst2 with hf | hf
        · rw [hf]; exact hhead
        · rw [hf]
          intro hmem
          rcases List.mem_append.mp hmem with hmem | hmem
          · exact hhead hmem
          · exact hp (List.mem_singleton.mp hmem)
      · intro q hq
        simp only [insertGrouped, if_neg hp, List.mem_cons] at hq
        rcases hq with hq | hq
        · rw [hq]
          exact hinv.2 p (List.mem_cons_self p ps)
        · exact hinv2.2 q hq
      · intro x
        simp only [insertGrouped, if_neg hp, List.mem_cons]
        constructor
        · rintro ⟨q, hq | hq, hx⟩
          · rw [hq] at hx
            exact Or.inl ⟨p, Or.inl rfl, hx⟩
          · rcases (hmem2 x).mp ⟨q, hq, hx⟩ with ⟨q2, hq2, hx2⟩ | hx2
            · exact Or.inl ⟨q2, Or.inr hq2, hx2⟩
            · exact Or.inr hx2
        · rintro (⟨q, hq | hq, hx⟩ | hx)
          · rw [hq] at hx
            exact ⟨p, Or.inl rfl, hx⟩
          · rcases (hmem2 x).mpr (Or.inl ⟨q, hq, hx⟩) with ⟨q2, hq2, hx2⟩
            exact ⟨q2, Or.inr hq2, hx2⟩
          · rcases (hmem2 x).mpr (Or.inr hx) with ⟨q2, hq2, hx2⟩
            exact ⟨q2, Or.inr hq2, hx2⟩
      · simp only [insertGrouped, if_neg hp, List.map_cons]
        rcases hfst2 with hf | hf
        · exact Or.inl (by rw [hf])
        · exact Or.inr (by rw [hf]; rfl)

lemma groupFiles_aux {α : Type} (key : α → String) :
    ∀ (files : List α) (gs : List (String × List α)), GroupInv key gs →
      GroupInv key (files.foldl (insertGrouped key) gs)
      ∧ (∀ x, (∃ p ∈ files.foldl (insertGrouped key) gs, x ∈ p.2)
          ↔ (∃ p ∈ gs, x ∈ p.2) ∨ x ∈ files) := by
  intro files
  induction files with
  | nil =>
    intro gs hinv
    exact ⟨hinv, fun x => by simp⟩
  | cons f fs ih =>
    intro gs hinv
    rcases insertGrouped_spec key f gs hinv with ⟨hinv2, hmem2, _⟩
    rcases ih (insertGrouped key gs f) hinv2 with ⟨hinv3, hmem3⟩
    refine ⟨hinv3, ?_⟩
    intro x
    rw [List.foldl_cons, hmem3 x, hmem2 x]
    constructor
    · rintro ((h | h) | h)
      · exact Or.inl h
      · exact Or.inr (by simp [h])
      · exact Or.inr (List.mem_cons_of_mem f h)
    · rintro (h | h)
      · exact Or.inl (Or.inl h)
      · rcases List.mem_cons.mp h with h | h
        · exact Or.inl (Or.inr h)
        · exact Or.inr h

lemma groupFiles_inv {α : Type} (key : α → String) (files : List α) :
    GroupInv key (groupFiles key files) :=
  (groupFiles_aux key files [] ⟨List.nodup_nil, by simp⟩).1

lemma groupFiles_mem {α : Type} (key : α → String) (files : List α) :
    ∀ x, (∃ p ∈ groupFiles key files, x ∈ p.2) ↔ x ∈ files := by
  intro x
  have h := (groupFiles_aux key files [] ⟨List.nodup_nil, by simp⟩).2 x
  simp only [groupFiles]
  rw [h]
  simp

/-- C3: `handleFiles` creates one queue item per group and two uploaded files land
in the same group exactly when `normalizeSku(getBaseName(name))` agrees; group keys
are pairwise distinct, every group is nonempty and holds only files with its key,
every uploaded file lands in a group, and the key computation strips view and
numeric suffixes, collapses dash/space runs to an underscore, and uppercases. -/
theorem handleFiles_grouping :
    (∀ (files : List String) f g, f ∈ files → g ∈ files →
      ((∃ p ∈ handleFilesGroups files, f ∈ p.2 ∧ g ∈ p.2) ↔ groupKey f = groupKey g))
    ∧ (∀ files : List String, ((handleFilesGroups files).map Prod.fst).Nodup)
    ∧ (∀ (files : List String) p, p ∈ handleFilesGroups files →
        p.2 ≠ [] ∧ ∀ f ∈ p.2, groupKey f = p.1)
    ∧ (∀ (files : List String) f, f ∈ files → ∃ p ∈ handleFilesGroups files, f ∈ p.2)
    ∧ groupKey "vestido-01_frente.JPG" = "VESTIDO_01"
    ∧ groupKey "vestido - 01_costas.jpg" = "VESTIDO_01"
    ∧ groupKey "camisa_02.png" = "CAMISA"
    ∧ groupKey " camisa_1_detalhe.jpeg" = "CAMISA" := by
  refine ⟨?_, fun files => (groupFiles_inv groupKey files).1,
    fun files p hp => (groupFiles_inv groupKey files).2 p hp,
    fun files f hf => (groupFiles_mem groupKey files f).mpr hf,
    by decide, by decide, by decide, by decide⟩
  intro files f g hf hg
  constructor
  · rintro ⟨p, hp, hfp, hgp⟩
    have h1 := ((groupFiles_inv groupKey files).2 p hp).2 f hfp
    have h2 := ((groupFiles_inv groupKey files).2 p hp).2 g hgp
    rw [h1, h2]
  · intro hkey
    rcases (groupFiles_mem groupKey files f).mpr hf with ⟨p, hp, hfp⟩
    rcases (groupFiles_mem groupKey files g).mpr hg with ⟨q, hq, hgq⟩
    have h1 := ((groupFiles_inv groupKey files).2 p hp).2 f hfp
    have h2 := ((groupFiles_inv groupKey files).2 q hq).2 g hgq
    have hpq : p = q := by
      apply List.inj_on_of_nodup_map (groupFiles_inv groupKey files).1 hp hq
      rw [← h1, ← h2]
      exact hkey
    subst hpq
    exact ⟨p, hp, hfp, hgq⟩

/-- Witness for `handleFiles_grouping` on a concrete upload: front and back views of
the same garment share one group while a different garment gets its own. -/
theorem handleFiles_grouping_witness :
    (∃ p ∈ handleFilesGroups ["vestido-01_frente.JPG", "vestido - 01_costas.jpg", "camisa_02.png"],
      "vestido-01_frente.JPG" ∈ p.2 ∧ "vestido - 01_costas.jpg" ∈ p.2)
    ∧ ¬ (∃ p ∈ handleFilesGroups ["vestido-01_frente.JPG", "vestido - 01_costas.jpg", "camisa_02.png"],
        "vestido-01_frente.JPG" ∈ p.2 ∧ "camisa_02.png" ∈ p.2)
    ∧ (handleFilesGroups ["vestido-01_frente.JPG", "vestido - 01_costas.jpg", "camisa_02.png"]).length = 2 := by
  refine ⟨?_, ?_, by decide⟩
  · exact (handleFiles_grouping.1 _ "vestido-01_frente.JPG" "vestido - 01_costas.jpg"
      (by decide) (by decide)).mpr (by decide)
  · intro hcontra
    have h := (handleFiles_grouping.1 _ "vestido-01_frente.JPG" "camisa_02.png"
      (by decide) (by decide)).mp hcontra
    revert h
    decide

/-! ### Gallery controllers (backend src/controllers/gallery.controller.ts)

The document database is modelled as a list of gallery documents (unique ids are a
hypothesis where proofs need them) and the object store as a list of storage paths.
Firestore batches are modelled by sequential application; a batch that names a
missing document fails atomically. -/

/-- Type of a gallery document (`type` field). -/
inductive DocType
  | folder | file | image
deriving DecidableEq

/-- Gallery document. -/
structure GDoc where
  id : String
  uid : String
  ty : DocType
  name : String
  parentId : String
  storagePath : Option String := none
deriving DecidableEq

/-- Backend state: gallery collection plus storage bucket paths. -/
structure GalleryState where
  docs : List GDoc
  storage : List String
deriving DecidableEq

/-- Embedding of `db.collection('gallery').doc(itemId).get()`. -/
def findDoc (st : GalleryState) (itemId : String) : Option GDoc :=
  st.docs.find? (fun d => decide (d.id = itemId))

/-- Delete the document with the given id from the collection. -/
def removeDocById (st : GalleryState) (itemId : String) : GalleryState :=
  { st with docs := st.docs.filter (fun d => decide (d.id ≠ itemId)) }

/-- Delete a storage object (a missing path is a no-op, like the caught
`bucket.file(...).delete()` rejection). -/
def removeStorage (st : GalleryState) (p : Option String) : GalleryState :=
  match p with
  | some path => { st with storage := st.storage.filter (fun q => decide (q ≠ path)) }
  | none => st

/-- Per-file branch of the delete controller: storage object, then the record. -/
def deleteFileDoc (st : GalleryState) (d : GDoc) : GalleryState :=
  removeDocById (removeStorage st d.storagePath) d.id

/-- Embedding of `deleteFolderRecursive`: delete owned sub-folders recursively,
then owned files of the folder (storage and records), then the folder record
itself.  Recursion is fuelled; the folder tree depth is bounded by the document
count. -/
def deleteFolderRecursiveFuel (uid : String) : Nat → String → GalleryState → GalleryState
  | 0, _, st => st
  | fuel + 1, folderId, st =>
    let subFolders := st.docs.filter
      (fun d => decide (d.uid = uid ∧ d.parentId = folderId ∧ d.ty = DocType.folder))
    let st1 := subFolders.foldl (fun s f => deleteFolderRecursiveFuel uid fuel f.id s) st
    let files := st1.docs.filter
      (fun d => decide (d.uid = uid ∧ d.parentId = folderId ∧ (d.ty = DocType.file ∨ d.ty = DocType.image)))
    let st2 := files.foldl deleteFileDoc st1
    removeDocById st2 folderId

/-- One iteration of the delete controller's loop over `itemIds`: a missing or
foreign item is skipped; an owned folder is deleted recursively; an owned
file/image loses its storage object and record. -/
def deleteItemsStep (uid : String) (st : GalleryState) (itemId : String) : GalleryState :=
  match findDoc st itemId with
  | none => st
  | some d =>
    if d.uid ≠ uid then st
    else
      match d.ty with
      | DocType.folder => deleteFolderRecursiveFuel uid st.docs.length itemId st
      | DocType.file => deleteFileDoc st d
      | DocType.image => deleteFileDoc st d

/-- Embedding of `deleteItemsController` on a well-formed request. -/
def deleteItemsController (uid : String) (itemIds : List String) (st : GalleryState) : GalleryState :=
  itemIds.foldl (deleteItemsStep uid) st

/-- Embedding of `findOrCreateTrashFolderController`: the user's existing `Lixeira`
folder, or a fresh one (with the provided generated id) added at the root. -/
def findOrCreateTrashFolder (uid newId : String) (st : GalleryState) : GDoc × GalleryState :=
  match st.docs.find? (fun d => decide (d.uid = uid ∧ d.name = "Lixeira" ∧ d.ty = DocType.folder)) with
  | some d => (d, st)
  | none =>
    let folder : GDoc :=
      { id := newId, uid := uid, ty := DocType.folder, name := "Lixeira", parentId := "root" }
    (folder, { st with docs := st.docs ++ [folder] })

/-- Extension kept by the rename controller:
`currentName.substring(currentName.lastIndexOf('.'))`, which is the whole name when
there is no dot (JavaScript `substring(-1)` clamps to 0). -/
def fileExtension (name : String) : String :=
  let l := name.data
  let revTail := l.reverse.takeWhile (fun c => c != '.')
  if revTail.length < l.length then String.mk (l.drop (l.length - revTail.length - 1))
  else name

/-- Embedding of `renameItemController`: 400 on a falsy new name, 404 when the item
is missing or owned by someone else, otherwise the name is updated (files keep
their extension). -/
def renameItemController (uid itemId newName : String) (st : GalleryState) : Nat × GalleryState :=
  if newName = "" then (400, st)
  else
    match findDoc st itemId with
    | none => (404, st)
    | some d =>
      if d.uid ≠ uid then (404, st)
      else
        let currentName := d.name
        let extension := if d.ty = DocType.file then fileExtension currentName else ""
        let finalName := if d.ty = DocType.file then newName ++ extension else newName
        let docs2 := st.docs.map (fun e => if e.id = itemId then { e with name := finalName } else e)
        (200, { st with docs := docs2 })

/-- Embedding of `moveItemsController`: 400 on a falsy destination, 500 (atomic
batch failure, nothing changed) when any named item is missing, otherwise every
named item's `parentId` is set to the destination — with no ownership check. -/
def moveItemsController (uid : String) (itemIds : List String) (destinationFolderId : String)
    (st : GalleryState) : Nat × GalleryState :=
  if destinationFolderId = "" then (400, st)
  else if itemIds.any (fun i => (findDoc st i).isNone) then (500, st)
  else
    let docs2 := st.docs.map
      (fun d => if decide (d.id ∈ itemIds) then { d with parentId := destinationFolderId } else d)
    (200, { st with docs := docs2 })

/-- State with one stored image owned by `u1`, used for the C4 bug theorem. -/
def c4State : GalleryState :=
  { docs := [⟨"f1", "u1", DocType.image, "foto.png", "root", some "u1/foto.png"⟩]
    storage := ["u1/foto.png"] }

/-- C4 bug witness: deleting an owned image destroys both the database record and
the stored file — nothing is retained or moved to a trash folder, so no restore is
possible; the delete is hard, not soft. -/
theorem deleteItems_hard_delete :
    deleteItemsController "u1" ["f1"] c4State = { docs := [], storage := [] }
    ∧ findDoc (deleteItemsController "u1" ["f1"] c4State) "f1" = none
    ∧ "u1/foto.png" ∉ (deleteItemsController "u1" ["f1"] c4State).storage
    ∧ (deleteItemsController "u1" ["f1"] c4State).docs.filter
        (fun d => decide (d.name = "Lixeira")) = [] := by
  refine ⟨rfl, rfl, ?_, rfl⟩
  intro h
  cases h

/-- State with one image owned by user `other`, used for the C9 counterexample. -/
def c9State : GalleryState :=
  { docs := [⟨"d1", "other", DocType.image, "x.png", "root", some "other/x.png"⟩]
    storage := ["other/x.png"] }

/-- C9 counterexample: user `me` moves item `d1` owned by user `other`; the request
succeeds with 200 and the foreign document's `parentId` is changed — the move
endpoint modifies a document whose uid differs from the authenticated user's. -/
theorem moveItems_foreign_counterexample :
    (moveItemsController "me" ["d1"] "dest" c9State).1 = 200
    ∧ (moveItemsController "me" ["d1"] "dest" c9State).2.docs =
        [⟨"d1", "other", DocType.image, "x.png", "dest", some "other/x.png"⟩]
    ∧ (moveItemsController "me" ["d1"] "dest" c9State).2 ≠ c9State := by
  refine ⟨rfl, rfl, ?_⟩
  decide

lemma removeStorage_docs (st : GalleryState) (p : Option String) :
    (removeStorage st p).docs = st.docs := by
  cases p <;> rfl

lemma deleteFileDoc_sublist (s : GalleryState) (f : GDoc) :
    (deleteFileDoc s f).docs.Sublist s.docs := by
  simp only [deleteFileDoc, removeDocById, removeStorage_docs]
  exact List.filter_sublist _

lemma mem_deleteFileDoc (s : GalleryState) (f d : GDoc) (hm : d ∈ s.docs) (hne : d.id ≠ f.id) :
    d ∈ (deleteFileDoc s f).docs := by
  simp only [deleteFileDoc, removeDocById, removeStorage_docs]
  exact List.mem_filter.mpr ⟨hm, by simpa using hne⟩

lemma docs_id_inj {l : List GDoc} (h : (l.map GDoc.id).Nodup) {a b : GDoc}
    (ha : a ∈ l) (hb : b ∈ l) (hid : a.id = b.id) : a = b :=
  List.inj_on_of_nodup_map h ha hb hid

lemma foldl_state_inv {β : Type} (P : GalleryState → Prop) (step : GalleryState → β → GalleryState) :
    ∀ (l : List β) (s : GalleryState), (∀ s2 b, b ∈ l → P s2 → P (step s2 b)) → P s →
      P (l.foldl step s) := by
  intro l
  induction l with
  | nil => intro s _ hs; exact hs
  | cons b bs ih =>
    intro s h hs
    exact ih (step s b)
      (fun s2 b2 hb2 => h s2 b2 (List.mem_cons_of_mem b hb2))
      (h s b (List.mem_cons_self b bs) hs)

lemma dfr_sublist (uid : String) :
    ∀ fuel folderId st, (deleteFolderRecursiveFuel uid fuel folderId st).docs.Sublist st.docs := by
  intro fuel
  induction fuel with
  | zero => intro folderId st; exact List.Sublist.refl _
  | succ n ih =>
    intro folderId st
    have h1 : ∀ (l : List GDoc) (s : GalleryState), s.docs.Sublist st.docs →
        ((l.foldl (fun s f => deleteFolderRecursiveFuel uid n f.id s) s).docs).Sublist st.docs := by
      intro l
      induction l with
      | nil => intro s hs; exact hs
      | cons f fs ihl =>
        intro s hs
        exact ihl _ (List.Sublist.trans (ih f.id s) hs)
    have h2 : ∀ (l : List GDoc) (s : GalleryState), s.docs.Sublist st.docs →
        ((l.foldl deleteFileDoc s).docs).Sublist st.docs := by
      intro l
      induction l with
      | nil => intro s hs; exact hs
      | cons f fs ihl =>
        intro s hs
        exact ihl _ (List.Sublist.trans (deleteFileDoc_sublist s f) hs)
    simp only [deleteFolderRecursiveFuel, removeDocById]
    refine List.Sublist.trans (List.filter_sublist _) ?_
    exact h2 _ _ (h1 _ _ (List.Sublist.refl _))

lemma dfr_preserves (uid : String) :
    ∀ fuel folderId st, (st.docs.map GDoc.id).Nodup →
      (∀ e ∈ st.docs, e.id = folderId → e.uid = uid) →
      ∀ d ∈ st.docs, d.uid ≠ uid → d ∈ (deleteFolderRecursiveFuel uid fuel folderId st).docs := by
  intro fuel
  induction fuel with
  | zero => intro folderId st _ _ d hd _; exact hd
  | succ n ih =>
    intro folderId st hnd hok d hd hdu
    simp only [deleteFolderRecursiveFuel, removeDocById]
    have hP1 := foldl_state_inv (fun s => s.docs.Sublist st.docs ∧ d ∈ s.docs)
      (fun s f => deleteFolderRecursiveFuel uid n f.id s)
      (st.docs.filter (fun e => decide (e.uid = uid ∧ e.parentId = folderId ∧ e.ty = DocType.folder)))
      st ?step1 ⟨List.Sublist.refl _, hd⟩
    case step1 =>
      intro s2 f hf hP
      have hfmem : f ∈ st.docs := (List.mem_filter.mp hf).1
      have hfuid : f.uid = uid := by
        have := (List.mem_filter.mp hf).2
        simp only [decide_eq_true_eq] at this
        exact this.1
      refine ⟨List.Sublist.trans (dfr_sublist uid n f.id s2) hP.1, ?_⟩
      refine ih f.id s2 ?_ ?_ d hP.2 hdu
      · exact (hnd.sublist (hP.1.map GDoc.id))
      · intro e he heid
        have hest : e ∈ st.docs := hP.1.subset he
        have : e = f := docs_id_inj hnd hest hfmem heid
        rw [this]
        exact hfuid
    set st1 := (st.docs.filter
      (fun e => decide (e.uid = uid ∧ e.parentId = folderId ∧ e.ty = DocType.folder))).foldl
      (fun s f => deleteFolderRecursiveFuel uid n f.id s) st with hst1
    have hP2 := foldl_state_inv (fun s => s.docs.Sublist st.docs ∧ d ∈ s.docs)
      deleteFileDoc
      (st1.docs.filter (fun e => decide (e.uid = uid ∧ e.parentId = folderId
        ∧ (e.ty = DocType.file ∨ e.ty = DocType.image))))
      st1 ?step2 hP1
    case step2 =>
      intro s2 f hf hP
      have hfmem : f ∈ st.docs := hP1.1.subset (List.mem_filter.mp hf).1
      have hfuid : f.uid = uid := by
        have := (List.mem_filter.mp hf).2
        simp only [decide_eq_true_eq] at this
        exact this.1
      refine ⟨List.Sublist.trans (deleteFileDoc_sublist s2 f) hP.1, ?_⟩
      refine mem_deleteFileDoc s2 f d hP.2 ?_
      intro hid
      have hdst : d ∈ st.docs := hP.1.subset hP.2
      have : d = f := docs_id_inj hnd hdst hfmem hid
      rw [this] at hdu
      exact hdu hfuid
    refine List.mem_filter.mpr ⟨hP2.2, ?_⟩
    simp only [decide_eq_true_eq]
    intro hidfold
    have hdst : d ∈ st.docs := hP2.1.subset hP2.2
    exact hdu (hok d hdst hidfold)

lemma deleteItemsStep_preserves (uid i : String) (s : GalleryState)
    (hnd : (s.docs.map GDoc.id).Nodup) :
    (deleteItemsStep uid s i).docs.Sublist s.docs
    ∧ ∀ d ∈ s.docs, d.uid ≠ uid → d ∈ (deleteItemsStep uid s i).docs := by
  cases hf : findDoc s i with
  | none =>
    simp only [deleteItemsStep, hf]
    exact ⟨List.Sublist.refl _, fun d hd _ => hd⟩
  | some d0 =>
    have hd0mem : d0 ∈ s.docs := List.mem_of_find?_eq_some hf
    have hd0id : d0.id = i := by
      have := List.find?_some hf
      simpa using this
    simp only [deleteItemsStep, hf]
    by_cases hu : d0.uid = uid
    · rw [if_neg (by simp [hu])]
      cases hty : d0.ty with
      | folder =>
        refine ⟨dfr_sublist uid s.docs.length i s, ?_⟩
        intro d hd hdu
        refine dfr_preserves uid s.docs.length i s hnd ?_ d hd hdu
        intro e he heid
        have : e = d0 := docs_id_inj hnd he hd0mem (by rw [heid, hd0id])
        rw [this]
        exact hu
      | file =>
        refine ⟨deleteFileDoc_sublist s d0, ?_⟩
        intro d hd hdu
        refine mem_deleteFileDoc s d0 d hd ?_
        intro hid
        have : d = d0 := docs_id_inj hnd hd hd0mem hid
        rw [this] at hdu
        exact hdu hu
      | image =>
        refine ⟨deleteFileDoc_sublist s d0, ?_⟩
        intro d hd hdu
        refine mem_deleteFileDoc s d0 d hd ?_
        intro hid
        have : d = d0 := docs_id_inj hnd hd hd0mem hid
        rw [this] at hdu
        exact hdu hu
    · rw [if_pos hu]
      exact ⟨List.Sublist.refl _, fun d hd _ => hd⟩

lemma deleteItemsController_preserves (uid : String) (itemIds : List String) (st : GalleryState)
    (hnd : (st.docs.map GDoc.id).Nodup) :
    ∀ d ∈ st.docs, d.uid ≠ uid → d ∈ (deleteItemsController uid itemIds st).docs := by
  have h := foldl_state_inv
    (fun s => s.docs.Sublist st.docs ∧ ∀ d ∈ st.docs, d.uid ≠ uid → d ∈ s.docs)
    (deleteItemsStep uid) itemIds st ?step ⟨List.Sublist.refl _, fun d hd _ => hd⟩
  · exact h.2
  case step =>
    intro s2 i _ hP
    have hnd2 : (s2.docs.map GDoc.id).Nodup := hnd.sublist (hP.1.map GDoc.id)
    rcases deleteItemsStep_preserves uid i s2 hnd2 with ⟨hsub, hpres⟩
    exact ⟨List.Sublist.trans hsub hP.1, fun d hd hdu => hpres d (hP.2 d hd hdu) hdu⟩

/-- Storage paths identify at most one gallery document (upload paths embed the
owner's uid and a fresh file name, so two documents never share one). -/
def StoragePathInj (st : GalleryState) : Prop :=
  ∀ a ∈ st.docs, ∀ b ∈ st.docs,
    a.storagePath.isSome = true → a.storagePath = b.storagePath → a = b

instance (st : GalleryState) : Decidable (StoragePathInj st) := by
  unfold StoragePathInj
  infer_instance

lemma removeDocById_storage (st : GalleryState) (i : String) :
    (removeDocById st i).storage = st.storage := rfl

lemma deleteFileDoc_storage_mem (s : GalleryState) (f : GDoc) (p : String)
    (hp : p ∈ s.storage) (hne : f.storagePath ≠ some p) :
    p ∈ (deleteFileDoc s f).storage := by
  simp only [deleteFileDoc, removeDocById_storage]
  cases hsp : f.storagePath with
  | none => simpa [removeStorage] using hp
  | some q =>
    simp only [removeStorage]
    refine List.mem_filter.mpr ⟨hp, ?_⟩
    simp only [decide_eq_true_eq]
    intro hpq
    exact hne (by rw [hsp, hpq])

lemma deleteItemsStep_sublist (uid i : String) (s : GalleryState) :
    (deleteItemsStep uid s i).docs.Sublist s.docs := by
  cases hf : findDoc s i with
  | none =>
    simp only [deleteItemsStep, hf]
    exact List.Sublist.refl _
  | some d0 =>
    simp only [deleteItemsStep, hf]
    by_cases hu : d0.uid = uid
    · rw [if_neg (by simp [hu])]
      cases hty : d0.ty with
      | folder => exact dfr_sublist uid s.docs.length i s
      | file => exact deleteFileDoc_sublist s d0
      | image => exact deleteFileDoc_sublist s d0
    · rw [if_pos hu]

lemma dfr_storage_preserves (uid : String) (base : GalleryState)
    (hpinj : StoragePathInj base) (d : GDoc) (hd : d ∈ base.docs) (hdu : d.uid ≠ uid)
    (p : String) (hdp : d.storagePath = some p) :
    ∀ fuel folderId s, s.docs.Sublist base.docs → p ∈ s.storage →
      p ∈ (deleteFolderRecursiveFuel uid fuel folderId s).storage := by
  intro fuel
  induction fuel with
  | zero => intro folderId s _ hp; exact hp
  | succ n ih =>
    intro folderId s hsub hp
    simp only [deleteFolderRecursiveFuel, removeDocById_storage]
    have hP1 := foldl_state_inv (fun s2 => s2.docs.Sublist base.docs ∧ p ∈ s2.storage)
      (fun s f => deleteFolderRecursiveFuel uid n f.id s)
      (s.docs.filter (fun e => decide (e.uid = uid ∧ e.parentId = folderId ∧ e.ty = DocType.folder)))
      s ?step1 ⟨hsub, hp⟩
    case step1 =>
      intro s2 f _ hP
      exact ⟨(dfr_sublist uid n f.id s2).trans hP.1, ih f.id s2 hP.1 hP.2⟩
    set st1 := (s.docs.filter
      (fun e => decide (e.uid = uid ∧ e.parentId = folderId ∧ e.ty = DocType.folder))).foldl
      (fun s f => deleteFolderRecursiveFuel uid n f.id s) s with hst1
    have hP2 := foldl_state_inv (fun s2 => s2.docs.Sublist base.docs ∧ p ∈ s2.storage)
      deleteFileDoc
      (st1.docs.filter (fun e => decide (e.uid = uid ∧ e.parentId = folderId
        ∧ (e.ty = DocType.file ∨ e.ty = DocType.image))))
      st1 ?step2 hP1
    case step2 =>
      intro s2 f hf hP
      have hfbase : f ∈ base.docs := hP1.1.subset (List.mem_filter.mp hf).1
      have hfuid : f.uid = uid := by
        have := (List.mem_filter.mp hf).2
        simp only [decide_eq_true_eq] at this
        exact this.1
      refine ⟨(deleteFileDoc_sublist s2 f).trans hP.1, ?_⟩
      refine deleteFileDoc_storage_mem s2 f p hP.2 ?_
      intro heq
      have hfd : f = d := hpinj f hfbase d hd (by rw [heq]; rfl) (by rw [heq, hdp])
      rw [hfd] at hfuid
      exact hdu hfuid
    exact hP2.2

lemma deleteItemsStep_storage_preserves (uid : String) (base : GalleryState)
    (hpinj : StoragePathInj base) (d : GDoc) (hd : d ∈ base.docs) (hdu : d.uid ≠ uid)
    (p : String) (hdp : d.storagePath = some p) :
    ∀ i s, s.docs.Sublist base.docs → p ∈ s.storage →
      p ∈ (deleteItemsStep uid s i).storage := by
  intro i s hsub hp
  cases hf : findDoc s i with
  | none =>
    simp only [deleteItemsStep, hf]
    exact hp
  | some d0 =>
    have hd0mem : d0 ∈ s.docs := List.mem_of_find?_eq_some hf
    simp only [deleteItemsStep, hf]
    by_cases hu : d0.uid = uid
    · rw [if_neg (by simp [hu])]
      cases hty : d0.ty with
      | folder =>
        exact dfr_storage_preserves uid base hpinj d hd hdu p hdp s.docs.length i s hsub hp
      | file =>
        refine deleteFileDoc_storage_mem s d0 p hp ?_
        intro heq
        have hd0d : d0 = d := hpinj d0 (hsub.subset hd0mem) d hd (by rw [heq]; rfl) (by rw [heq, hdp])
        rw [hd0d] at hu
        exact hdu hu
      | image =>
        refine deleteFileDoc_storage_mem s d0 p hp ?_
        intro heq
        have hd0d : d0 = d := hpinj d0 (hsub.subset hd0mem) d hd (by rw [heq]; rfl) (by rw [heq, hdp])
        rw [hd0d] at hu
        exact hdu hu
    · rw [if_pos hu]
      exact hp

lemma deleteItemsController_storage_preserves (uid : String) (itemIds : List String)
    (st : GalleryState) (hpinj : StoragePathInj st) :
    ∀ d ∈ st.docs, d.uid ≠ uid → ∀ p, d.storagePath = some p → p ∈ st.storage →
      p ∈ (deleteItemsController uid itemIds st).storage := by
  intro d hd hdu p hdp hp
  have h := foldl_state_inv (fun s => s.docs.Sublist st.docs ∧ p ∈ s.storage)
    (deleteItemsStep uid) itemIds st ?step ⟨List.Sublist.refl _, hp⟩
  · exact h.2
  case step =>
    intro s2 i _ hP
    exact ⟨(deleteItemsStep_sublist uid i s2).trans hP.1,
      deleteItemsStep_storage_preserves uid st hpinj d hd hdu p hdp i s2 hP.1 hP.2⟩

/-- Result state of a successful move: every named document's `parentId` is set to
the destination, regardless of its owner. -/
def moveDocs (itemIds : List String) (dest : String) (st : GalleryState) : GalleryState :=
  let docs2 := st.docs.map
    (fun d => if decide (d.id ∈ itemIds) then { d with parentId := dest } else d)
  { st with docs := docs2 }

/-- C9 (amended): the rename and delete endpoints modify only documents owned by
the requester — a request naming a missing item yields 404 (rename) or is skipped
(delete), and a foreign item's record and stored file are left unchanged: rename
returns the state untouched and never writes storage, delete keeps the foreign
record (under unique document ids) and its storage object (under unique storage
paths) — but the move endpoint updates the `parentId` of every named existing item
regardless of its owner (failing atomically with 500 only when a named item does
not exist), while never touching storage. -/
theorem galleryMutation_ownership_amended :
    (∀ uid itemId newName st, newName ≠ "" → findDoc st itemId = none →
      renameItemController uid itemId newName st = (404, st))
    ∧ (∀ uid itemId newName st d, findDoc st itemId = some d → d.uid ≠ uid →
        (renameItemController uid itemId newName st).2 = st)
    ∧ (∀ uid itemId newName st, (st.docs.map GDoc.id).Nodup →
        ∀ d ∈ st.docs, d.uid ≠ uid → d ∈ (renameItemController uid itemId newName st).2.docs)
    ∧ (∀ uid itemId newName st,
        (renameItemController uid itemId newName st).2.storage = st.storage)
    ∧ (∀ uid i st, findDoc st i = none → deleteItemsStep uid st i = st)
    ∧ (∀ uid itemIds st, (st.docs.map GDoc.id).Nodup →
        ∀ d ∈ st.docs, d.uid ≠ uid → d ∈ (deleteItemsController uid itemIds st).docs)
    ∧ (∀ uid itemIds st, StoragePathInj st →
        ∀ d ∈ st.docs, d.uid ≠ uid → ∀ p, d.storagePath = some p → p ∈ st.storage →
          p ∈ (deleteItemsController uid itemIds st).storage)
    ∧ (∀ uid itemIds dest st, dest ≠ "" → (∀ i ∈ itemIds, (findDoc st i).isSome) →
        moveItemsController uid itemIds dest st = (200, moveDocs itemIds dest st))
    ∧ (∀ uid itemIds dest st, dest ≠ "" → (∃ i ∈ itemIds, findDoc st i = none) →
        moveItemsController uid itemIds dest st = (500, st))
    ∧ (∀ uid itemIds dest st,
        (moveItemsController uid itemIds dest st).2.storage = st.storage) := by
  refine ⟨?_, ?_, ?_, ?_, ?_, ?_, ?_, ?_, ?_, ?_⟩
  · intro uid itemId newName st hnew hfind
    simp only [renameItemController]
    rw [if_neg hnew, hfind]
  · intro uid itemId newName st d hfind hdu
    by_cases hnew : newName = ""
    · simp only [renameItemController]
      rw [if_pos hnew]
    · simp only [renameItemController]
      rw [if_neg hnew, hfind]
      simp only [if_pos hdu]
  · intro uid itemId newName st hnd d hd hdu
    by_cases hnew : newName = ""
    · simp only [renameItemController]
      rw [if_pos hnew]
      exact hd
    · cases hfind : findDoc st itemId with
      | none =>
        simp only [renameItemController]
        rw [if_neg hnew, hfind]
        exact hd
      | some d0 =>
        by_cases hu : d0.uid ≠ uid
        · simp only [renameItemController]
          rw [if_neg hnew, hfind]
          simp only [if_pos hu]
          exact hd
        · simp only [renameItemController]
          rw [if_neg hnew, hfind]
          simp only [if_neg hu]
          have hd0mem : d0 ∈ st.docs := List.mem_of_find?_eq_some hfind
          have hd0id : d0.id = itemId := by
            have := List.find?_some hfind
            simpa using this
          have hne : ¬ d.id = itemId := by
            intro hid
            have : d = d0 := docs_id_inj hnd hd hd0mem (by rw [hid, hd0id])
            rw [this] at hdu
            exact hdu (not_not.mp hu)
          exact List.mem_map.mpr ⟨d, hd, by rw [if_neg hne]⟩
  · intro uid itemId newName st
    by_cases hnew : newName = ""
    · simp only [renameItemController]
      rw [if_pos hnew]
    · cases hfind : findDoc st itemId with
      | none =>
        simp only [renameItemController, hfind]
        rw [if_neg hnew]
      | some d0 =>
        simp only [renameItemController, hfind]
        rw [if_neg hnew]
        by_cases hu : d0.uid ≠ uid
        · rw [if_pos hu]
        · rw [if_neg hu]
  · intro uid i st hfind
    simp only [deleteItemsStep, hfind]
  · intro uid itemIds st hnd
    exact deleteItemsController_preserves uid itemIds st hnd
  · intro uid itemIds st hpinj
    exact deleteItemsController_storage_preserves uid itemIds st hpinj
  · intro uid itemIds dest st hdest hsome
    have hany : (itemIds.any (fun i => (findDoc st i).isNone)) = false := by
      rw [List.any_eq_false]
      intro i hi
      have h2 := hsome i hi
      cases hfd : findDoc st i with
      | none => rw [hfd] at h2; simp at h2
      | some v => simp [hfd]
    simp only [moveItemsController]
    rw [if_neg hdest, hany]
    rfl
  · intro uid itemIds dest st hdest hmissing
    rcases hmissing with ⟨i, hi, hnone⟩
    have hany : (itemIds.any (fun i => (findDoc st i).isNone)) = true := by
      rw [List.any_eq_true]
      exact ⟨i, hi, by simp [hnone]⟩
    simp only [moveItemsController]
    rw [if_neg hdest, hany]
    rfl
  · intro uid itemIds dest st
    simp only [moveItemsController]
    by_cases hdest : dest = ""
    · rw [if_pos hdest]
    · rw [if_neg hdest]
      cases hany : itemIds.any (fun i => (findDoc st i).isNone) with
      | false => rfl
      | true => rfl

/-- Witness for `galleryMutation_ownership_amended` at concrete states: renaming a
missing item 404s and changes nothing, deleting a foreign item leaves both its
record and its storage object in place, and moving a foreign item succeeds,
repointing the record while leaving storage untouched. -/
theorem galleryMutation_ownership_amended_witness :
    renameItemController "me" "nope" "novo" c9State = (404, c9State)
    ∧ (⟨"d1", "other", DocType.image, "x.png", "root", some "other/x.png"⟩ : GDoc)
        ∈ (deleteItemsController "me" ["d1"] c9State).docs
    ∧ "other/x.png" ∈ (deleteItemsController "me" ["d1"] c9State).storage
    ∧ moveItemsController "me" ["d1"] "dest" c9State = (200, moveDocs ["d1"] "dest" c9State)
    ∧ (moveItemsController "me" ["d1"] "dest" c9State).2.storage = c9State.storage := by
  refine ⟨?_, ?_, ?_, ?_, ?_⟩
  · exact galleryMutation_ownership_amended.1 "me" "nope" "novo" c9State (by decide) (by decide)
  · exact galleryMutation_ownership_amended.2.2.2.2.2.1 "me" ["d1"] c9State (by decide)
      ⟨"d1", "other", DocType.image, "x.png", "root", some "other/x.png"⟩ (by decide) (by decide)
  · exact galleryMutation_ownership_amended.2.2.2.2.2.2.1 "me" ["d1"] c9State (by decide)
      ⟨"d1", "other", DocType.image, "x.png", "root", some "other/x.png"⟩ (by decide) (by decide)
      "other/x.png" rfl (by decide)
  · exact galleryMutation_ownership_amended.2.2.2.2.2.2.2.1 "me" ["d1"] "dest" c9State (by decide)
      (by intro i hi; rw [List.mem_singleton.mp hi]; decide)
  · exact galleryMutation_ownership_amended.2.2.2.2.2.2.2.2.2 "me" ["d1"] "dest" c9State

/-! ### Outpainting mask construction (src/unnamed/part_001, `createMaskedImage`)

Canvas contents are modelled as draw-operation lists with a pixel-level rendering
semantics; a `toDataURL` result is represented by the canvas contents it encodes. -/

/-- 2D canvas drawing operations used by `createMaskedImage`. -/
inductive CanvasOp
  | fillRect (color : String) (x y w h : ℚ)
  | clearRect (x y w h : ℚ)
  | drawImage (x y w h : ℚ)
deriving DecidableEq

/-- Canvas: dimensions plus the operations drawn on it, in order. -/
structure Canvas where
  width : ℚ
  height : ℚ
  ops : List CanvasOp
deriving DecidableEq

/-- Rendered state of one pixel. -/
inductive Pixel
  | transparent
  | colored (c : String)
deriving DecidableEq

/-- Membership of the point `(px, py)` in the axis-aligned rectangle. -/
def InRect (px py x y w h : ℚ) : Prop :=
  x ≤ px ∧ px < x + w ∧ y ≤ py ∧ py < y + h

instance (px py x y w h : ℚ) : Decidable (InRect px py x y w h) := by
  unfold InRect
  infer_instance

/-- Effect of one draw operation on one pixel. -/
def applyOp (p : Pixel) (op : CanvasOp) (px py : ℚ) : Pixel :=
  match op with
  | CanvasOp.fillRect c x y w h => if InRect px py x y w h then Pixel.colored c else p
  | CanvasOp.clearRect x y w h => if InRect px py x y w h then Pixel.transparent else p
  | CanvasOp.drawImage x y w h => if InRect px py x y w h then Pixel.colored "image" else p

/-- Pixel semantics of a canvas: fold the operations over a transparent pixel. -/
def renderPixel (cv : Canvas) (px py : ℚ) : Pixel :=
  cv.ops.foldl (fun p op => applyOp p op px py) Pixel.transparent

/-- Destination rectangle `(destX, destY, destWidth, destHeight)` where the
original image is placed: fit inside the target preserving aspect ratio, centred. -/
def destRect (iw ih tw th : ℚ) : ℚ × ℚ × ℚ × ℚ :=
  let hRatio := tw / iw
  let vRatio := th / ih
  let ratio := min hRatio vRatio
  let destWidth := iw * ratio
  let destHeight := ih * ratio
  let destX := (tw - destWidth) / 2
  let destY := (th - destHeight) / 2
  (destX, destY, destWidth, destHeight)

/-- The `canvasBase` of `createMaskedImage`: white background, image drawn at the
destination rectangle. -/
def baseCanvas (iw ih tw th : ℚ) : Canvas :=
  let r := destRect iw ih tw th
  { width := tw
    height := th
    ops := [CanvasOp.fillRect "#FFFFFF" 0 0 tw th, CanvasOp.drawImage r.1 r.2.1 r.2.2.1 r.2.2.2] }

/-- The `canvasMask` of `createMaskedImage`: red fill, cleared over the destination
rectangle — red exactly over the padding region, per the source comments. -/
def maskCanvas (iw ih tw th : ℚ) : Canvas :=
  let r := destRect iw ih tw th
  { width := tw
    height := th
    ops := [CanvasOp.fillRect "red" 0 0 tw th, CanvasOp.clearRect r.1 r.2.1 r.2.2.1 r.2.2.2] }

/-- Embedding of `createMaskedImage`.  The source builds both canvases but its
return statement is `{ baseImage: canvasBase.toDataURL('image/png'), maskImage:
canvasBase.toDataURL('image/png') }` — both components are rendered from the base
canvas and `canvasMask` is discarded. -/
def createMaskedImage (iw ih tw th : ℚ) : Canvas × Canvas :=
  let canvasBase := baseCanvas iw ih tw th
  (canvasBase, canvasBase)

/-- The `(baseFile, maskFile)` pair that `expandImage` builds from
`createMaskedImage` and sends to `generateEditedImage`. -/
def expandImageFiles (iw ih tw th : ℚ) : Canvas × Canvas :=
  let bm := createMaskedImage iw ih tw th
  (bm.1, bm.2)

/-- C10 bug witness, at a 1×1 image expanded to 3×1 (nonempty padding): the
returned `maskImage` equals the returned `baseImage`, which renders white (not
red) over the padding pixel (0,0), even though the constructed mask canvas renders
red there and transparent over the image pixel (1,0); consequently `expandImage`
sends a mask identical to the padded base image. -/
theorem createMaskedImage_mask_equals_base :
    (createMaskedImage 1 1 3 1).2 = (createMaskedImage 1 1 3 1).1
    ∧ renderPixel (maskCanvas 1 1 3 1) 0 0 = Pixel.colored "red"
    ∧ renderPixel (baseCanvas 1 1 3 1) 0 0 = Pixel.colored "#FFFFFF"
    ∧ renderPixel ((createMaskedImage 1 1 3 1).2) 0 0 = Pixel.colored "#FFFFFF"
    ∧ renderPixel ((createMaskedImage 1 1 3 1).2) 0 0 ≠ renderPixel (maskCanvas 1 1 3 1) 0 0
    ∧ renderPixel (maskCanvas 1 1 3 1) 1 0 = Pixel.transparent
    ∧ (expandImageFiles 1 1 3 1).2 = (expandImageFiles 1 1 3 1).1 := by
  have hmask : renderPixel (maskCanvas 1 1 3 1) 0 0 = Pixel.colored "red" := by
    norm_num [renderPixel, maskCanvas, destRect, applyOp, InRect, min_def]
  have hbase : renderPixel (baseCanvas 1 1 3 1) 0 0 = Pixel.colored "#FFFFFF" := by
    norm_num [renderPixel, baseCanvas, destRect, applyOp, InRect, min_def]
  have hret : renderPixel ((createMaskedImage 1 1 3 1).2) 0 0 = Pixel.colored "#FFFFFF" := by
    norm_num [renderPixel, createMaskedImage, baseCanvas, destRect, applyOp, InRect, min_def]
  have htrans : renderPixel (maskCanvas 1 1 3 1) 1 0 = Pixel.transparent := by
    norm_num [renderPixel, maskCanvas, destRect, applyOp, InRect, min_def]
  refine ⟨rfl, hmask, hbase, hret, ?_, htrans, rfl⟩
  rw [hret, hmask]
  intro h
  exact absurd (Pixel.colored.inj h) (by decide)

end EstudioWeb
